import Mathlib

/-!
Shallow embedding of the jungo (pure-Go) rules engine.

Source layout:
* `src/board.ts` — board primitives (grids, groups, liberties, capture,
  suicide, stone counting);
* `src/game.ts` — the game state machine (`createGame`, `playMove`,
  `countStonesInGroup`);
* `src/constants.ts` — `MIN_BOARD_SIZE`;
* `src/types.ts` — the data model.

Conventions of the embedding:
* TypeScript `Cell = Color | null` becomes `Option Color`; a grid is a list
  of rows, each a list of cells, mirroring the `Cell[][]` arrays.
* Coordinates are integers (`Int`), since positions with negative
  components flow through `isValidPosition` and neighbor generation.
* JS `board[y]?.[x]` (which yields `undefined` out of range) becomes
  `cellAt`, returning `Option (Option Color)`: `none` for a missing cell,
  `some none` for an empty cell, `some (some c)` for a stone.
* The JS worklist loops (`findGroup`, `countStonesInGroup`) pop from the
  end of an array; here the stack is a list whose head is the top, so a
  block of pushes appends the reversed block in front of the rest.  The
  loops are expressed with a fuel parameter; `dfsFuel` exceeds the number
  of iterations the JS loop can perform (every pushed element beyond the
  seed is in bounds, so at most `size^2 + 1` pops mark a new visited key,
  and total pops are bounded by total pushes `≤ 1 + 4*(size^2+1)`).
* JS `Set`/`Map` dedup keyed by `"x,y"` strings becomes `dedupFirst`
  (the string key determines and is determined by the coordinates).
* `createGame` takes its size as a rational, standing in for the JS
  `number` argument, so that the `Number.isInteger` test is expressible.
-/

/-- `Color` from `types.ts`. -/
inductive Color where
  | black
  | white
deriving DecidableEq, Repr

/-- `Cell = Color | null` from `types.ts`. -/
abbrev Cell := Option Color

/-- `Position` from `types.ts` (integer coordinates). -/
structure Pos where
  x : Int
  y : Int
deriving DecidableEq, Repr

/-- A board: `Cell[][]`, a list of rows. -/
abbrev Grid := List (List Cell)

/-- The opponent color: `color === "black" ? "white" : "black"`. -/
def Color.other : Color → Color
  | .black => .white
  | .white => .black

/-- `MIN_BOARD_SIZE` from `constants.ts`. -/
def MIN_BOARD_SIZE : ℤ := 2

/-- `board[p.y]?.[p.x]`: `none` when the index is outside the array
structure (JS `undefined`), otherwise `some` the stored cell. -/
def cellAt (board : Grid) (p : Pos) : Option Cell :=
  if p.y < 0 ∨ p.x < 0 then none
  else match board.get? p.y.toNat with
    | none => none
    | some row => row.get? p.x.toNat

/-- Write `c` to cell `p`.  JS copies the affected row and assigns in
place; value-wise this is `List.set` on the row.  Out-of-structure
writes (which crash in JS and are unreachable from validated callers)
are a no-op here. -/
def setCell (board : Grid) (p : Pos) (c : Cell) : Grid :=
  if p.y < 0 ∨ p.x < 0 then board
  else match board.get? p.y.toNat with
    | none => board
    | some row => board.set p.y.toNat (row.set p.x.toNat c)

/-- `createEmptyBoard` from `board.ts`: a size×size grid of `null`. -/
def createEmptyBoard (size : Nat) : Grid :=
  List.replicate size (List.replicate size (none : Cell))

/-- `isValidPosition` from `board.ts`. -/
def isValidPosition (size : Nat) (position : Pos) : Bool :=
  0 ≤ position.x && position.x < (size : Int) && 0 ≤ position.y && position.y < (size : Int)

/-- `placeStone` from `board.ts` (structural sharing elided; the value is
the grid with `position` set to `color`). -/
def placeStone (board : Grid) (position : Pos) (color : Color) : Grid :=
  setCell board position (some color)

/-- `getNeighbors` from `board.ts`: the in-bounds cells above, right,
below, left of `position`, in that order. -/
def getNeighbors (size : Nat) (position : Pos) : List Pos :=
  [⟨position.x, position.y - 1⟩, ⟨position.x + 1, position.y⟩,
   ⟨position.x, position.y + 1⟩, ⟨position.x - 1, position.y⟩].filter
    (fun newPos => isValidPosition size newPos)

/-- Fuel bound for the DFS worklists: strictly more than the number of
loop iterations the JS search can perform on a board of this length
(total pops ≤ total pushes ≤ 1 + 4·(size² + 1)). -/
def dfsFuel (board : Grid) : Nat :=
  5 * (board.length * board.length + 1) + 1

/-- The worklist loop shared (textually duplicated, structurally
identical) by `findGroup` in `board.ts` and `countStonesInGroup` in
`game.ts`, here collecting the visited matching positions in visit
order.  The list head is the JS stack's top; the JS `visited` set is a
list; neighbors are filtered against `visited` after `current` is added
and pushed in canonical order (hence `.reverse` before prepending). -/
def groupLoop (board : Grid) (color : Color) :
    Nat → List Pos → List Pos → List Pos
  | 0, _, _ => []
  | _ + 1, [], _ => []
  | fuel + 1, current :: rest, visited =>
    if current ∈ visited then groupLoop board color fuel rest visited
    else
      let visited1 := current :: visited
      if cellAt board current = some (some color) then
        let pushed := ((getNeighbors board.length current).filter
          (fun n => ¬ n ∈ visited1)).reverse
        current :: groupLoop board color fuel (pushed ++ rest) visited1
      else
        groupLoop board color fuel rest visited1

/-- `findGroup` from `board.ts`: DFS from `position` over same-colored
4-neighbors; empty or out-of-structure seed yields `[]`. -/
def findGroup (board : Grid) (position : Pos) : List Pos :=
  match cellAt board position with
  | some (some color) => groupLoop board color (dfsFuel board) [position] []
  | _ => []

/-- The same worklist loop as `groupLoop`, counting instead of
collecting: the body of `countStonesInGroup` in `game.ts`. -/
def countLoop (board : Grid) (color : Color) :
    Nat → List Pos → List Pos → Nat
  | 0, _, _ => 0
  | _ + 1, [], _ => 0
  | fuel + 1, current :: rest, visited =>
    if current ∈ visited then countLoop board color fuel rest visited
    else
      let visited1 := current :: visited
      if cellAt board current = some (some color) then
        let pushed := ((getNeighbors board.length current).filter
          (fun n => ¬ n ∈ visited1)).reverse
        1 + countLoop board color fuel (pushed ++ rest) visited1
      else
        countLoop board color fuel rest visited1

/-- `countStonesInGroup` from `game.ts` (inlines the same directions and
bounds test as `getNeighbors`). -/
def countStonesInGroup (board : Grid) (position : Pos) : Nat :=
  match cellAt board position with
  | some (some color) => countLoop board color (dfsFuel board) [position] []
  | _ => 0

/-- Deduplication keeping the first occurrence: the value content of the
JS `Set`/`Map` keyed by the `"x,y"` string of each position. -/
def dedupFirst (seen : List Pos) : List Pos → List Pos
  | [] => []
  | p :: rest =>
    if p ∈ seen then dedupFirst seen rest
    else p :: dedupFirst (p :: seen) rest

/-- `countLiberties` from `board.ts`: number of distinct empty cells
adjacent to the group rooted at `position` (`board[n.y][n.x] === null`
is `cellAt board n = some none`; rows shorter than the board length make
the test false, as in JS where the access yields `undefined`). -/
def countLiberties (board : Grid) (position : Pos) : Nat :=
  let group := findGroup board position
  let size := board.length
  (dedupFirst [] (group.flatMap (fun pos =>
    (getNeighbors size pos).filter (fun n => cellAt board n = some none)))).length

/-- `removeStones` from `board.ts`: empty list short-circuits to the
input grid itself; otherwise every listed cell is set to `null` (the
row-copying bookkeeping of the source is value-irrelevant). -/
def removeStones (board : Grid) (positions : List Pos) : Grid :=
  if positions = [] then board
  else positions.foldl (fun b pos => setCell b pos none) board

/-- Result record of `captureStones`. -/
structure CaptureResult where
  board : Grid
  captured : List Pos
deriving DecidableEq, Repr

/-- `captureStones` from `board.ts`: for each neighbor of `lastMove`
holding the opposite color whose group has no liberties, capture that
group; dedup; remove from the board. -/
def captureStones (board : Grid) (lastMove : Pos) (color : Color) : CaptureResult :=
  let size := board.length
  let opponentColor := color.other
  let captured := (getNeighbors size lastMove).flatMap (fun neighbor =>
    if cellAt board neighbor = some (some opponentColor) then
      if countLiberties board neighbor = 0 then findGroup board neighbor
      else []
    else [])
  let uniqueCaptured := dedupFirst [] captured
  { board := removeStones board uniqueCaptured, captured := uniqueCaptured }

/-- `wouldBeSuicide` from `board.ts`: speculative placement, then
capture check; a capture means not suicide, otherwise suicide iff the
placing group has zero liberties. -/
def wouldBeSuicide (board : Grid) (position : Pos) (color : Color) : Bool :=
  let testBoard := placeStone board position color
  let res := captureStones testBoard position color
  if res.captured.length > 0 then false
  else countLiberties testBoard position == 0

/-- The `{black, white}` stone tally.  Fields are integers, matching the
JS numbers that the differential update in `playMove` adds to and
subtracts from. -/
structure StoneCount where
  black : Int
  white : Int
deriving DecidableEq, Repr

/-- Stones of color `c` in one row. -/
def rowCount (c : Color) : List Cell → Int
  | [] => 0
  | cell :: rest => (if cell = some c then 1 else 0) + rowCount c rest

/-- Stones of color `c` on the whole grid. -/
def gridCount (c : Color) : Grid → Int
  | [] => 0
  | row :: rest => rowCount c row + gridCount c rest

/-- `countStones` from `board.ts`: full-scan tally of both colors. -/
def countStones (board : Grid) : StoneCount :=
  { black := gridCount .black board, white := gridCount .white board }

/-- `Move` from `types.ts`. -/
inductive Move where
  | play (position : Pos)
  | pass
  | resign
deriving DecidableEq, Repr

/-- The non-null values of `winner`: a color or `"draw"`. -/
inductive Winner where
  | color (c : Color)
  | draw
deriving DecidableEq, Repr

/-- `MoveError` from `types.ts`. -/
inductive MoveError where
  | invalid_position
  | occupied
  | suicide
  | ko
  | game_over
deriving DecidableEq, Repr

/-- `GameState` from `types.ts`.  `lastMove` pairs the move with the
color that played it (`Move & { color }`); `size` is the validated
integer board dimension. -/
structure GameState where
  board : Grid
  size : Nat
  currentPlayer : Color
  koPoint : Option Pos
  moveCount : Nat
  lastMove : Option (Move × Color)
  isOver : Bool
  winner : Option Winner
  stoneCount : StoneCount
deriving DecidableEq, Repr

/-- `MoveResult` from `types.ts`. -/
inductive MoveResult where
  | success (state : GameState)
  | failure (error : MoveError)
deriving DecidableEq, Repr

/-- `createGame` from `game.ts`.  The JS `number` argument is modelled
as a rational: `Number.isInteger` is `den = 1`, and the guard throws
(`Except.error`) exactly when the argument is not an integer or is
below `MIN_BOARD_SIZE`. -/
def createGame (sizeQ : ℚ) : Except String GameState :=
  if ¬ sizeQ.den = 1 ∨ sizeQ < (MIN_BOARD_SIZE : ℚ) then
    .error "Invalid board size"
  else
    let size := sizeQ.num.toNat
    .ok { board := createEmptyBoard size
          size := size
          currentPlayer := .black
          koPoint := none
          moveCount := 0
          lastMove := none
          isOver := false
          winner := none
          stoneCount := { black := 0, white := 0 } }

/-- `playMove` from `game.ts`, translated clause by clause. -/
def playMove (state : GameState) (move : Move) : MoveResult :=
  if state.isOver then .failure .game_over
  else
    let currentColor := state.currentPlayer
    let nextColor := currentColor.other
    match move with
    | .resign =>
      .success { state with
        lastMove := some (move, currentColor)
        moveCount := state.moveCount + 1
        isOver := true
        winner := some (.color nextColor) }
    | .pass =>
      let isConsecutivePass : Bool :=
        match state.lastMove with
        | some (.pass, _) => true
        | _ => false
      let isOver := isConsecutivePass
      let winner : Option Winner :=
        if isOver then
          if state.stoneCount.black > state.stoneCount.white then some (.color .black)
          else if state.stoneCount.white > state.stoneCount.black then some (.color .white)
          else some .draw
        else none
      .success { state with
        currentPlayer := nextColor
        koPoint := none
        moveCount := state.moveCount + 1
        lastMove := some (move, currentColor)
        isOver := isOver
        winner := winner }
    | .play position =>
      if ¬ isValidPosition state.size position then .failure .invalid_position
      else if ¬ cellAt state.board position = some none then .failure .occupied
      else
        let koViolation : Bool :=
          match state.koPoint with
          | some koPoint => position.x = koPoint.x && position.y = koPoint.y
          | none => false
        if koViolation then .failure .ko
        else if wouldBeSuicide state.board position currentColor then .failure .suicide
        else
          let newBoard := placeStone state.board position currentColor
          let res := captureStones newBoard position currentColor
          let boardAfterCapture := res.board
          let newKoPoint : Option Pos :=
            if res.captured.length = 1 then
              if countStonesInGroup boardAfterCapture position = 1 then
                res.captured.head?
              else none
            else none
          let afterAdd : StoneCount :=
            match currentColor with
            | .black => { black := state.stoneCount.black + 1, white := state.stoneCount.white }
            | .white => { black := state.stoneCount.black, white := state.stoneCount.white + 1 }
          let newStoneCount : StoneCount :=
            if res.captured.length > 0 then
              match nextColor with
              | .black => { afterAdd with black := afterAdd.black - res.captured.length }
              | .white => { afterAdd with white := afterAdd.white - res.captured.length }
            else afterAdd
          .success { state with
            board := boardAfterCapture
            currentPlayer := nextColor
            koPoint := newKoPoint
            moveCount := state.moveCount + 1
            lastMove := some (move, currentColor)
            stoneCount := newStoneCount }

/-- States reachable through the public API: a `createGame` result, or a
successful `playMove` from a reachable state. -/
inductive Reachable : GameState → Prop where
  | created (sizeQ : ℚ) (s : GameState) :
      createGame sizeQ = .ok s → Reachable s
  | step (s s1 : GameState) (m : Move) :
      Reachable s → playMove s m = .success s1 → Reachable s1

/-! ## Helper lemmas -/

/-- The counting worklist computes the length of the collecting one. -/
theorem countLoop_eq_length (board : Grid) (color : Color) :
    ∀ fuel stack visited, countLoop board color fuel stack visited
      = (groupLoop board color fuel stack visited).length := by
  intro fuel
  induction fuel with
  | zero => intro stack visited; simp [countLoop, groupLoop]
  | succ n ih =>
    intro stack visited
    cases stack with
    | nil => simp [countLoop, groupLoop]
    | cons current rest =>
      by_cases hv : current ∈ visited
      · simp [countLoop, groupLoop, hv, ih]
      · by_cases hc : cellAt board current = some (some color)
        · simp [countLoop, groupLoop, hv, hc, ih, Nat.add_comm]
        · simp [countLoop, groupLoop, hv, hc, ih]

/-! ## Claims -/

/-- C8: `removeStones` with an empty position list returns the input
grid itself (the short-circuit branch of the source). -/
theorem removeStones_nil_id (board : Grid) : removeStones board [] = board := rfl

/-- C10: the state machine's `countStonesInGroup` agrees with the length
of the board layer's `findGroup` on every board and seed position,
including empty and out-of-structure seeds (0 and `[]`). -/
theorem countStonesInGroup_eq_findGroup_length (board : Grid) (position : Pos) :
    countStonesInGroup board position = (findGroup board position).length := by
  unfold countStonesInGroup findGroup
  cases hc : cellAt board position with
  | none => rfl
  | some cell =>
    cases cell with
    | none => rfl
    | some color => exact countLoop_eq_length board color _ _ _

/-- C3: the suicide test returns `false` whenever the speculative
placement captures at least one opposing stone; with no capture it
returns `true` exactly when the placed group, measured after placement
and before capture, has zero liberties. -/
theorem wouldBeSuicide_spec (board : Grid) (position : Pos) (color : Color)
    (hin : isValidPosition board.length position = true)
    (hempty : cellAt board position = some none) :
    ((captureStones (placeStone board position color) position color).captured ≠ [] →
      wouldBeSuicide board position color = false) ∧
    ((captureStones (placeStone board position color) position color).captured = [] →
      (wouldBeSuicide board position color = true ↔
        countLiberties (placeStone board position color) position = 0)) := by
  constructor
  · intro hcap
    unfold wouldBeSuicide
    simp only [gt_iff_lt, List.length_pos]
    rw [if_pos hcap]
  · intro hcap
    unfold wouldBeSuicide
    simp only [hcap, List.length_nil, gt_iff_lt, Nat.lt_irrefl, if_false]
    exact beq_iff_eq

/-- C6: resignation on a non-terminal state succeeds, ends the game in
favor of the opponent, increments `moveCount`, records the resigning
color in `lastMove`, and leaves board, stone counts, and ko point
unchanged. -/
theorem resign_spec (s : GameState) (h : s.isOver = false) :
    ∃ s1, playMove s .resign = .success s1 ∧ s1.isOver = true ∧
      s1.winner = some (.color s.currentPlayer.other) ∧
      s1.moveCount = s.moveCount + 1 ∧
      s1.lastMove = some (.resign, s.currentPlayer) ∧
      s1.board = s.board ∧ s1.stoneCount = s.stoneCount ∧ s1.koPoint = s.koPoint := by
  refine ⟨{ s with
      lastMove := some (.resign, s.currentPlayer),
      moveCount := s.moveCount + 1,
      isOver := true,
      winner := some (.color s.currentPlayer.other) },
    ?_, rfl, rfl, rfl, rfl, rfl, rfl, rfl⟩
  simp [playMove, h]

/-- C9: the game-ending second pass still toggles `currentPlayer` and
clears `koPoint`, exactly as a non-ending pass does. -/
theorem ending_pass_toggles_and_clears_ko (s : GameState) (h : s.isOver = false)
    (hp : ∃ c, s.lastMove = some (Move.pass, c)) :
    ∃ s1, playMove s .pass = .success s1 ∧ s1.isOver = true ∧
      s1.currentPlayer = s.currentPlayer.other ∧ s1.koPoint = none := by
  obtain ⟨c, hc⟩ := hp
  refine ⟨{ s with
      currentPlayer := s.currentPlayer.other,
      koPoint := none,
      moveCount := s.moveCount + 1,
      lastMove := some (.pass, s.currentPlayer),
      isOver := true,
      winner := if s.stoneCount.black > s.stoneCount.white then some (.color .black)
        else if s.stoneCount.white > s.stoneCount.black then some (.color .white)
        else some .draw }, ?_, rfl, rfl, rfl⟩
  simp [playMove, h, hc]

/-- C4: a pass after a pass succeeds and ends the game, the winner being
the side with strictly more stones (draw on equality); a pass whose
predecessor was not a pass leaves the game running. -/
theorem pass_termination_spec (s : GameState) (h : s.isOver = false) :
    ((∃ c, s.lastMove = some (Move.pass, c)) →
      ∃ s1, playMove s .pass = .success s1 ∧ s1.isOver = true ∧
        s1.winner = some (if s.stoneCount.black > s.stoneCount.white then Winner.color .black
          else if s.stoneCount.white > s.stoneCount.black then Winner.color .white
          else Winner.draw)) ∧
    ((∀ c, ¬ s.lastMove = some (Move.pass, c)) →
      ∃ s1, playMove s .pass = .success s1 ∧ s1.isOver = false) := by
  constructor
  · rintro ⟨c, hc⟩
    refine ⟨{ s with
        currentPlayer := s.currentPlayer.other,
        koPoint := none,
        moveCount := s.moveCount + 1,
        lastMove := some (.pass, s.currentPlayer),
        isOver := true,
        winner := if s.stoneCount.black > s.stoneCount.white then some (.color .black)
          else if s.stoneCount.white > s.stoneCount.black then some (.color .white)
          else some .draw }, ?_, rfl, ?_⟩
    · simp [playMove, h, hc]
    · by_cases h1 : s.stoneCount.black > s.stoneCount.white
      · simp [h1]
      · by_cases h2 : s.stoneCount.white > s.stoneCount.black <;> simp [h1, h2]
  · intro hnp
    refine ⟨{ s with
        currentPlayer := s.currentPlayer.other,
        koPoint := none,
        moveCount := s.moveCount + 1,
        lastMove := some (.pass, s.currentPlayer),
        isOver := false,
        winner := none }, ?_, rfl⟩
    rcases hl : s.lastMove with _ | ⟨m, c⟩
    · simp [playMove, h, hl]
    · cases m with
      | play q => simp [playMove, h, hl]
      | pass => exact absurd hl (hnp c)
      | resign => simp [playMove, h, hl]

/-- C5: on a finished game every move kind fails with `game_over`;
otherwise a play is validated in the exact order invalid_position,
occupied, ko, suicide, each failing with its own error, and every other
case (including pass and resign on a running game) succeeds — so no
other error kind is ever produced. -/
theorem playMove_validation_spec (s : GameState) (m : Move) :
    (s.isOver = true → playMove s m = .failure .game_over) ∧
    (s.isOver = false → ∀ p, m = .play p →
      (isValidPosition s.size p = false → playMove s m = .failure .invalid_position) ∧
      (isValidPosition s.size p = true → ¬ cellAt s.board p = some none →
        playMove s m = .failure .occupied) ∧
      (isValidPosition s.size p = true → cellAt s.board p = some none →
        s.koPoint = some p → playMove s m = .failure .ko) ∧
      (isValidPosition s.size p = true → cellAt s.board p = some none →
        ¬ s.koPoint = some p → wouldBeSuicide s.board p s.currentPlayer = true →
        playMove s m = .failure .suicide) ∧
      (isValidPosition s.size p = true → cellAt s.board p = some none →
        ¬ s.koPoint = some p → wouldBeSuicide s.board p s.currentPlayer = false →
        ∃ s1, playMove s m = .success s1)) ∧
    (s.isOver = false → m = .pass → ∃ s1, playMove s m = .success s1) ∧
    (s.isOver = false → m = .resign → ∃ s1, playMove s m = .success s1) := by
  refine ⟨?_, ?_, ?_, ?_⟩
  · intro h; simp [playMove, h]
  · intro h p hm
    subst hm
    refine ⟨?_, ?_, ?_, ?_, ?_⟩
    · intro hv; simp [playMove, h, hv]
    · intro hv ho; simp [playMove, h, hv, ho]
    · intro hv ho hk; simp [playMove, h, hv, ho, hk]
    · intro hv ho hk hs
      rcases hko : s.koPoint with _ | kp
      · simp [playMove, h, hv, ho, hko, hs]
      · have hne : ¬ (p.x = kp.x ∧ p.y = kp.y) := by
          rintro ⟨hx, hy⟩
          apply hk
          rw [hko]
          cases p; cases kp; simp_all
        by_cases hx : p.x = kp.x
        · have hy : ¬ p.y = kp.y := fun hy => hne ⟨hx, hy⟩
          simp [playMove, h, hv, ho, hko, hx, hy, hs]
        · simp [playMove, h, hv, ho, hko, hx, hs]
    · intro hv ho hk hs
      cases hr : playMove s (.play p) with
      | success s1 => exact ⟨s1, rfl⟩
      | failure e =>
        exfalso
        rcases hko : s.koPoint with _ | kp
        · simp [playMove, h, hv, ho, hko, hs] at hr
        · have hne : ¬ (p.x = kp.x ∧ p.y = kp.y) := by
            rintro ⟨hx, hy⟩
            apply hk
            rw [hko]
            cases p; cases kp; simp_all
          by_cases hx : p.x = kp.x
          · have hy : ¬ p.y = kp.y := fun hy => hne ⟨hx, hy⟩
            simp [playMove, h, hv, ho, hko, hx, hy, hs] at hr
          · simp [playMove, h, hv, ho, hko, hx, hs] at hr
  · intro h hm
    subst hm
    cases hr : playMove s .pass with
    | success s1 => exact ⟨s1, rfl⟩
    | failure e => simp [playMove, h] at hr
  · intro h hm
    subst hm
    cases hr : playMove s .resign with
    | success s1 => exact ⟨s1, rfl⟩
    | failure e => simp [playMove, h] at hr

/-- C7: game/grid construction rejects a size that is not an integer or
is below `MIN_BOARD_SIZE = 2`; for an integer size ≥ 2 it yields the
size-by-size all-empty grid. -/
theorem createGame_size_validation (sizeQ : ℚ) :
    (¬ (sizeQ.den = 1 ∧ (MIN_BOARD_SIZE : ℚ) ≤ sizeQ) →
      ∃ msg, createGame sizeQ = .error msg) ∧
    (∀ n : ℤ, sizeQ = (n : ℚ) → MIN_BOARD_SIZE ≤ n →
      ∃ s, createGame sizeQ = .ok s ∧ s.board = createEmptyBoard n.toNat ∧
        s.board.length = n.toNat ∧
        ∀ row ∈ s.board, row.length = n.toNat ∧ ∀ cell ∈ row, cell = none) := by
  constructor
  · intro hbad
    have hg : ¬ sizeQ.den = 1 ∨ sizeQ < (MIN_BOARD_SIZE : ℚ) := by
      by_cases hd : sizeQ.den = 1
      · right
        by_contra hlt
        exact hbad ⟨hd, not_lt.mp hlt⟩
      · left; exact hd
    exact ⟨"Invalid board size", by unfold createGame; rw [if_pos hg]⟩
  · intro n hn hge
    subst hn
    have hden : ((n : ℚ)).den = 1 := Rat.den_intCast n
    have hnum : ((n : ℚ)).num = n := Rat.num_intCast n
    have hle : ((MIN_BOARD_SIZE : ℤ) : ℚ) ≤ (n : ℚ) := Int.cast_le.mpr hge
    have hg : ¬ (¬ ((n : ℚ)).den = 1 ∨ (n : ℚ) < (MIN_BOARD_SIZE : ℚ)) := by
      rintro (hd | hlt)
      · exact hd hden
      · exact absurd hlt (not_lt.mpr hle)
    refine ⟨{ board := createEmptyBoard n.toNat
              size := n.toNat
              currentPlayer := .black
              koPoint := none
              moveCount := 0
              lastMove := none
              isOver := false
              winner := none
              stoneCount := { black := 0, white := 0 } }, ?_, rfl, ?_, ?_⟩
    · unfold createGame
      rw [if_neg hg]
      simp [hnum]
    · simp [createEmptyBoard]
    · intro row hrow
      have : row = List.replicate n.toNat (none : Cell) :=
        List.eq_of_mem_replicate hrow
      subst this
      simp

/-- The successor state built in the success path of `playMove`'s
`play` branch (steps 5–9 of the source), factored out for reuse in
proofs. -/
def playSuccessor (s : GameState) (p : Pos) : GameState :=
  let currentColor := s.currentPlayer
  let nextColor := currentColor.other
  let newBoard := placeStone s.board p currentColor
  let res := captureStones newBoard p currentColor
  let boardAfterCapture := res.board
  let newKoPoint : Option Pos :=
    if res.captured.length = 1 then
      if countStonesInGroup boardAfterCapture p = 1 then
        res.captured.head?
      else none
    else none
  let afterAdd : StoneCount :=
    match currentColor with
    | .black => { black := s.stoneCount.black + 1, white := s.stoneCount.white }
    | .white => { black := s.stoneCount.black, white := s.stoneCount.white + 1 }
  let newStoneCount : StoneCount :=
    if res.captured.length > 0 then
      match nextColor with
      | .black => { afterAdd with black := afterAdd.black - res.captured.length }
      | .white => { afterAdd with white := afterAdd.white - res.captured.length }
    else afterAdd
  { s with
    board := boardAfterCapture
    currentPlayer := nextColor
    koPoint := newKoPoint
    moveCount := s.moveCount + 1
    lastMove := some (.play p, currentColor)
    stoneCount := newStoneCount }

/-- A successful `play` move passed all four checks and produced
exactly the successor state of the source's success path. -/
theorem play_success_eq (s : GameState) (p : Pos) (s1 : GameState)
    (h : playMove s (.play p) = .success s1) :
    s.isOver = false ∧ isValidPosition s.size p = true ∧
    cellAt s.board p = some none ∧
    wouldBeSuicide s.board p s.currentPlayer = false ∧
    s1 = playSuccessor s p := by
  simp only [playMove] at h
  by_cases hov : s.isOver = true
  · rw [if_pos hov] at h; cases h
  · rw [if_neg hov] at h
    by_cases hv : isValidPosition s.size p = true
    · rw [if_neg (by simp [hv])] at h
      by_cases ho : cellAt s.board p = some none
      · rw [if_neg (by simp [ho])] at h
        by_cases hk : (match s.koPoint with
            | some koPoint => (decide (p.x = koPoint.x) && decide (p.y = koPoint.y))
            | none => false) = true
        · rw [if_pos hk] at h; cases h
        · rw [if_neg hk] at h
          by_cases hs : wouldBeSuicide s.board p s.currentPlayer = true
          · rw [if_pos hs] at h; cases h
          · rw [if_neg hs] at h
            cases h
            exact ⟨Bool.not_eq_true s.isOver ▸ hov, hv, ho,
              Bool.not_eq_true _ ▸ hs, rfl⟩
      · rw [if_pos (by simp [ho])] at h
        cases h
    · rw [if_pos (by simp [Bool.not_eq_true] at hv ⊢; exact hv)] at h
      cases h

/-- Shared helper: the group-size count agrees with the group length
(used both by the refinement claim and the ko characterization). -/
theorem countGroup_eq_aux (board : Grid) (position : Pos) :
    countStonesInGroup board position = (findGroup board position).length := by
  unfold countStonesInGroup findGroup
  cases hc : cellAt board position with
  | none => rfl
  | some cell =>
    cases cell with
    | none => rfl
    | some color => exact countLoop_eq_length board color _ _ _

/-- C2: after a successful play, the new `koPoint` is the single
captured position exactly when one stone was captured and the group of
the placed stone on the post-capture board has one stone; otherwise it
is `none`. -/
theorem koPoint_rearm_spec (s : GameState) (p : Pos) (s1 : GameState)
    (h : playMove s (.play p) = .success s1) :
    s1.koPoint =
      if (captureStones (placeStone s.board p s.currentPlayer) p
            s.currentPlayer).captured.length = 1
          ∧ (findGroup (captureStones (placeStone s.board p s.currentPlayer) p
              s.currentPlayer).board p).length = 1
      then (captureStones (placeStone s.board p s.currentPlayer) p
            s.currentPlayer).captured.head?
      else none := by
  obtain ⟨-, -, -, -, hs1⟩ := play_success_eq s p s1 h
  subst hs1
  rw [← countGroup_eq_aux]
  simp only [playSuccessor]
  by_cases h1 : (captureStones (placeStone s.board p s.currentPlayer) p
      s.currentPlayer).captured.length = 1
  · by_cases h2 : countStonesInGroup (captureStones (placeStone s.board p
        s.currentPlayer) p s.currentPlayer).board p = 1
    · simp [h1, h2]
    · simp [h1, h2]
  · simp [h1]

/-- Setting an existing cell of a row adjusts the row tally by the
difference of the old and new cell. -/
theorem rowCount_set (c : Color) :
    ∀ (row : List Cell) (x : Nat) (oldc newc : Cell),
      row.get? x = some oldc →
      rowCount c (row.set x newc)
        = rowCount c row + (if newc = some c then 1 else 0)
          - (if oldc = some c then 1 else 0) := by
  intro row
  induction row with
  | nil => intro x oldc newc hx; simp at hx
  | cons cell rest ih =>
    intro x oldc newc hx
    cases x with
    | zero =>
      simp only [List.get?_cons_zero, Option.some.injEq] at hx
      subst hx
      simp only [List.set, rowCount]
      ring
    | succ n =>
      simp only [List.get?_cons_succ] at hx
      simp only [List.set, rowCount, ih n oldc newc hx]
      ring

/-- Replacing an existing row adjusts the grid tally by the difference
of the row tallies. -/
theorem gridCount_set_row (c : Color) :
    ∀ (b : Grid) (y : Nat) (row newRow : List Cell),
      b.get? y = some row →
      gridCount c (b.set y newRow)
        = gridCount c b + rowCount c newRow - rowCount c row := by
  intro b
  induction b with
  | nil => intro y row newRow hy; simp at hy
  | cons r rest ih =>
    intro y row newRow hy
    cases y with
    | zero =>
      simp only [List.get?_cons_zero, Option.some.injEq] at hy
      subst hy
      simp only [List.set, gridCount]
      ring
    | succ n =>
      simp only [List.get?_cons_succ] at hy
      simp only [List.set, gridCount, ih n row newRow hy]
      ring

/-- Writing over an existing cell adjusts the tally by the difference
of the old and new cell. -/
theorem gridCount_setCell (c : Color) (b : Grid) (p : Pos) (oldc newc : Cell)
    (h : cellAt b p = some oldc) :
    gridCount c (setCell b p newc)
      = gridCount c b + (if newc = some c then 1 else 0)
        - (if oldc = some c then 1 else 0) := by
  unfold cellAt at h
  unfold setCell
  by_cases hneg : p.y < 0 ∨ p.x < 0
  · rw [if_pos hneg] at h; cases h
  · rw [if_neg hneg] at h
    rw [if_neg hneg]
    cases hrow : b.get? p.y.toNat with
    | none => rw [hrow] at h; cases h
    | some row =>
      rw [hrow] at h
      rw [gridCount_set_row c b p.y.toNat row _ hrow,
        rowCount_set c row p.x.toNat oldc newc h]
      ring

/-- Writing one cell leaves every other cell unchanged. -/
theorem cellAt_setCell_ne (b : Grid) (p q : Pos) (newc : Cell) (hne : q ≠ p) :
    cellAt (setCell b p newc) q = cellAt b q := by
  unfold setCell
  by_cases hpneg : p.y < 0 ∨ p.x < 0
  · rw [if_pos hpneg]
  · rw [if_neg hpneg]
    cases hrow : b.get? p.y.toNat with
    | none => rfl
    | some row =>
      have hplen : p.y.toNat < b.length := by
        by_contra hge
        rw [List.get?_eq_none.mpr (Nat.le_of_not_lt hge)] at hrow
        cases hrow
      unfold cellAt
      by_cases hqneg : q.y < 0 ∨ q.x < 0
      · rw [if_pos hqneg, if_pos hqneg]
      · rw [if_neg hqneg, if_neg hqneg]
        by_cases hy : q.y.toNat = p.y.toNat
        · have hyy : q.y = p.y := by omega
          have hxx : q.x ≠ p.x := by
            intro hx
            exact hne (by cases p; cases q; simp_all)
          have hxn : q.x.toNat ≠ p.x.toNat := by omega
          rw [hy, List.get?_set_eq_of_lt _ hplen, hrow]
          exact List.get?_set_ne _ _ (fun he => hxn he.symm)
        · rw [List.get?_set_ne _ _ (fun he => hy he.symm)]

/-- Removing a duplicate-free list of stones of one color removes
exactly its length from that color's tally. -/
theorem gridCount_removeFold (c col : Color) :
    ∀ (l : List Pos) (b : Grid), l.Nodup →
      (∀ q ∈ l, cellAt b q = some (some col)) →
      gridCount c (l.foldl (fun acc pos => setCell acc pos none) b)
        = gridCount c b - (l.length : Int) * (if col = c then 1 else 0) := by
  intro l
  induction l with
  | nil => intro b _ _; simp
  | cons q rest ih =>
    intro b hnd hcol
    have hq : cellAt b q = some (some col) := hcol q (by simp)
    have h1 : gridCount c (setCell b q none)
        = gridCount c b - (if col = c then 1 else 0) := by
      rw [gridCount_setCell c b q (some col) none hq]
      simp
    have hrest : ∀ r ∈ rest, cellAt (setCell b q none) r = some (some col) := by
      intro r hr
      have hne : r ≠ q := by
        intro he; subst he; exact (List.nodup_cons.mp hnd).1 hr
      rw [cellAt_setCell_ne b q r none hne]
      exact hcol r (by simp [hr])
    simp only [List.foldl_cons]
    rw [ih (setCell b q none) (List.nodup_cons.mp hnd).2 hrest, h1]
    simp only [List.length_cons]
    push_cast
    ring

/-- Elements of the deduplicated list come from the input list. -/
theorem mem_dedupFirst : ∀ (l seen : List Pos) (q : Pos),
    q ∈ dedupFirst seen l → q ∈ l := by
  intro l
  induction l with
  | nil => intro seen q h; simp [dedupFirst] at h
  | cons p rest ih =>
    intro seen q h
    unfold dedupFirst at h
    by_cases hp : p ∈ seen
    · rw [if_pos hp] at h
      exact List.mem_cons_of_mem _ (ih seen q h)
    · rw [if_neg hp] at h
      rcases List.mem_cons.mp h with he | hm
      · simp [he]
      · exact List.mem_cons_of_mem _ (ih (p :: seen) q hm)

/-- The deduplicated list is duplicate-free and avoids the seen list. -/
theorem dedupFirst_nodup_aux : ∀ (l seen : List Pos),
    (dedupFirst seen l).Nodup ∧ ∀ q ∈ dedupFirst seen l, q ∉ seen := by
  intro l
  induction l with
  | nil => intro seen; simp [dedupFirst]
  | cons p rest ih =>
    intro seen
    unfold dedupFirst
    by_cases hp : p ∈ seen
    · rw [if_pos hp]; exact ih seen
    · rw [if_neg hp]
      obtain ⟨hnd, hout⟩ := ih (p :: seen)
      refine ⟨List.nodup_cons.mpr ⟨?_, hnd⟩, ?_⟩
      · intro hmem
        exact hout p hmem (by simp)
      · intro q hq
        rcases List.mem_cons.mp hq with he | hm
        · subst he; exact hp
        · intro hqs
          exact hout q hm (by simp [hqs])

/-- Every position collected by the worklist holds a stone of the
searched color. -/
theorem groupLoop_color (board : Grid) (color : Color) :
    ∀ fuel stack visited q, q ∈ groupLoop board color fuel stack visited →
      cellAt board q = some (some color) := by
  intro fuel
  induction fuel with
  | zero => intro stack visited q h; simp [groupLoop] at h
  | succ n ih =>
    intro stack visited q h
    cases stack with
    | nil => simp [groupLoop] at h
    | cons current rest =>
      by_cases hv : current ∈ visited
      · exact ih rest visited q (by simpa [groupLoop, hv] using h)
      · by_cases hc : cellAt board current = some (some color)
        · simp only [groupLoop, if_neg hv, if_pos hc] at h
          rcases List.mem_cons.mp h with he | hm
          · subst he; exact hc
          · exact ih _ _ q hm
        · simp only [groupLoop, if_neg hv, if_neg hc] at h
          exact ih _ _ q h

/-- Every member of a group holds a stone of the color seen at the
seed. -/
theorem findGroup_color (board : Grid) (position : Pos) (color : Color)
    (hseed : cellAt board position = some (some color)) :
    ∀ q ∈ findGroup board position, cellAt board q = some (some color) := by
  intro q hq
  unfold findGroup at hq
  rw [hseed] at hq
  exact groupLoop_color board color _ _ _ q hq

/-- Captured positions hold opponent stones on the pre-removal board. -/
theorem captureStones_captured_color (b : Grid) (p : Pos) (col : Color) :
    ∀ q ∈ (captureStones b p col).captured, cellAt b q = some (some col.other) := by
  intro q hq
  unfold captureStones at hq
  simp only at hq
  have hq2 := mem_dedupFirst _ _ q hq
  rw [List.mem_flatMap] at hq2
  obtain ⟨n, hn, hqn⟩ := hq2
  by_cases hcell : cellAt b n = some (some col.other)
  · rw [if_pos hcell] at hqn
    by_cases hlib : countLiberties b n = 0
    · rw [if_pos hlib] at hqn
      exact findGroup_color b n col.other hcell q hqn
    · rw [if_neg hlib] at hqn; simp at hqn
  · rw [if_neg hcell] at hqn; simp at hqn

/-- The captured list is duplicate-free. -/
theorem captureStones_captured_nodup (b : Grid) (p : Pos) (col : Color) :
    (captureStones b p col).captured.Nodup := by
  unfold captureStones
  simp only
  exact (dedupFirst_nodup_aux _ _).1

/-- The post-capture board tally: one stone of the mover's color added,
the captured stones subtracted from the opponent's color. -/
theorem gridCount_capture (b : Grid) (p : Pos) (cur : Color)
    (hocc : cellAt b p = some none) (c : Color) :
    gridCount c (captureStones (placeStone b p cur) p cur).board
      = gridCount c b + (if cur = c then 1 else 0)
        - ((captureStones (placeStone b p cur) p cur).captured.length : Int)
          * (if cur.other = c then 1 else 0) := by
  have hplace : gridCount c (placeStone b p cur)
      = gridCount c b + (if cur = c then 1 else 0) := by
    unfold placeStone
    rw [gridCount_setCell c b p none (some cur) hocc]
    simp
  have hboard : (captureStones (placeStone b p cur) p cur).board
      = removeStones (placeStone b p cur)
          (captureStones (placeStone b p cur) p cur).captured := rfl
  rw [hboard]
  unfold removeStones
  by_cases hnil : (captureStones (placeStone b p cur) p cur).captured = []
  · rw [if_pos hnil, hplace, hnil]
    simp
  · rw [if_neg hnil,
      gridCount_removeFold c cur.other _ (placeStone b p cur)
        (captureStones_captured_nodup _ _ _)
        (captureStones_captured_color _ _ _),
      hplace]

/-- An all-`none` row tallies to zero. -/
theorem rowCount_replicate (c : Color) : ∀ k, rowCount c (List.replicate k (none : Cell)) = 0 := by
  intro k
  induction k with
  | zero => simp [rowCount]
  | succ n ih => simp [List.replicate, rowCount, ih]

/-- A grid of zero-tally rows tallies to zero. -/
theorem gridCount_replicate (c : Color) (row : List Cell) (hrow : rowCount c row = 0) :
    ∀ k, gridCount c (List.replicate k row) = 0 := by
  intro k
  induction k with
  | zero => simp [gridCount]
  | succ n ih => simp [List.replicate, gridCount, hrow, ih]

/-- The empty board tallies to zero. -/
theorem gridCount_createEmptyBoard (c : Color) (k : Nat) :
    gridCount c (createEmptyBoard k) = 0 := by
  unfold createEmptyBoard
  exact gridCount_replicate c _ (rowCount_replicate c k) k

/-- Passes and resignations leave the board and the stone counts of the
state unchanged. -/
theorem pass_resign_frame (s : GameState) (m : Move) (s1 : GameState)
    (h : playMove s m = .success s1) (hm : m = .pass ∨ m = .resign) :
    s1.board = s.board ∧ s1.stoneCount = s.stoneCount := by
  rcases hm with hm | hm
  · subst hm
    simp only [playMove] at h
    by_cases hov : s.isOver = true
    · rw [if_pos hov] at h; cases h
    · rw [if_neg hov] at h; cases h; exact ⟨rfl, rfl⟩
  · subst hm
    simp only [playMove] at h
    by_cases hov : s.isOver = true
    · rw [if_pos hov] at h; cases h
    · rw [if_neg hov] at h; cases h; exact ⟨rfl, rfl⟩

/-- C1: on every state reachable through `createGame` and successful
`playMove` applications, the incrementally maintained `stoneCount`
equals the full-scan `countStones` of the board (both totals). -/
theorem stoneCount_eq_countStones_of_reachable (s : GameState) (h : Reachable s) :
    s.stoneCount = countStones s.board := by
  induction h with
  | created q s hc =>
    unfold createGame at hc
    by_cases hg : ¬ q.den = 1 ∨ q < (MIN_BOARD_SIZE : ℚ)
    · rw [if_pos hg] at hc; cases hc
    · rw [if_neg hg] at hc
      cases hc
      unfold countStones
      simp [gridCount_createEmptyBoard]
  | step s s1 m hr hp ih =>
    cases m with
    | pass =>
      obtain ⟨hb, hsc⟩ := pass_resign_frame s .pass s1 hp (Or.inl rfl)
      rw [hsc, hb]; exact ih
    | resign =>
      obtain ⟨hb, hsc⟩ := pass_resign_frame s .resign s1 hp (Or.inr rfl)
      rw [hsc, hb]; exact ih
    | play p =>
      obtain ⟨hov, hv, hocc, hsui, hs1⟩ := play_success_eq s p s1 hp
      subst hs1
      have ihb : s.stoneCount.black = gridCount Color.black s.board := by
        rw [ih]; rfl
      have ihw : s.stoneCount.white = gridCount Color.white s.board := by
        rw [ih]; rfl
      unfold playSuccessor countStones
      simp only
      cases hcur : s.currentPlayer with
      | black =>
        have hb := gridCount_capture s.board p Color.black hocc Color.black
        have hw := gridCount_capture s.board p Color.black hocc Color.white
        simp only [Color.other] at hb hw ⊢
        simp at hb hw
        by_cases hlen : (captureStones (placeStone s.board p Color.black) p
            Color.black).captured.length > 0
        · rw [if_pos hlen]
          simp only [StoneCount.mk.injEq]
          constructor <;> omega
        · rw [if_neg hlen]
          have hzero : (captureStones (placeStone s.board p Color.black) p
              Color.black).captured.length = 0 := by omega
          simp only [StoneCount.mk.injEq]
          constructor <;> omega
      | white =>
        have hb := gridCount_capture s.board p Color.white hocc Color.black
        have hw := gridCount_capture s.board p Color.white hocc Color.white
        simp only [Color.other] at hb hw ⊢
        simp at hb hw
        by_cases hlen : (captureStones (placeStone s.board p Color.white) p
            Color.white).captured.length > 0
        · rw [if_pos hlen]
          simp only [StoneCount.mk.injEq]
          constructor <;> omega
        · rw [if_neg hlen]
          have hzero : (captureStones (placeStone s.board p Color.white) p
              Color.white).captured.length = 0 := by omega
          simp only [StoneCount.mk.injEq]
          constructor <;> omega

/-! ## Concrete states for witnesses -/

/-- The fresh 2×2 game, i.e. the value of `createGame 2`. -/
def gameA : GameState :=
  { board := [[none, none], [none, none]]
    size := 2
    currentPlayer := .black
    koPoint := none
    moveCount := 0
    lastMove := none
    isOver := false
    winner := none
    stoneCount := { black := 0, white := 0 } }

/-- The state after black plays (0,0) on `gameA`. -/
def gameB : GameState :=
  { board := [[some .black, none], [none, none]]
    size := 2
    currentPlayer := .white
    koPoint := none
    moveCount := 1
    lastMove := some (.play ⟨0, 0⟩, .black)
    isOver := false
    winner := none
    stoneCount := { black := 1, white := 0 } }

/-- `gameA` after a first pass by black. -/
def gameP : GameState :=
  { gameA with
    lastMove := some (.pass, Color.black)
    currentPlayer := .white
    moveCount := 1 }

/-- A finished game. -/
def gameO : GameState :=
  { gameA with
    isOver := true }

/-- Witness for C1 at the fresh 2×2 game. -/
theorem stoneCount_eq_countStones_of_reachable_witness :
    gameA.stoneCount = countStones gameA.board :=
  stoneCount_eq_countStones_of_reachable gameA (Reachable.created 2 gameA (by rfl))

/-- Witness for C2 at black's opening play on the 2×2 game. -/
theorem koPoint_rearm_spec_witness :
    gameB.koPoint =
      if (captureStones (placeStone gameA.board ⟨0, 0⟩ gameA.currentPlayer) ⟨0, 0⟩
            gameA.currentPlayer).captured.length = 1
          ∧ (findGroup (captureStones (placeStone gameA.board ⟨0, 0⟩ gameA.currentPlayer) ⟨0, 0⟩
              gameA.currentPlayer).board ⟨0, 0⟩).length = 1
      then (captureStones (placeStone gameA.board ⟨0, 0⟩ gameA.currentPlayer) ⟨0, 0⟩
            gameA.currentPlayer).captured.head?
      else none :=
  koPoint_rearm_spec gameA ⟨0, 0⟩ gameB (by rfl)

/-- Witness for C3 at the empty 2×2 grid. -/
theorem wouldBeSuicide_spec_witness :
    ((captureStones (placeStone [[none, none], [none, none]] ⟨0, 0⟩ Color.black) ⟨0, 0⟩
        Color.black).captured ≠ [] →
      wouldBeSuicide [[none, none], [none, none]] ⟨0, 0⟩ Color.black = false) ∧
    ((captureStones (placeStone [[none, none], [none, none]] ⟨0, 0⟩ Color.black) ⟨0, 0⟩
        Color.black).captured = [] →
      (wouldBeSuicide [[none, none], [none, none]] ⟨0, 0⟩ Color.black = true ↔
        countLiberties (placeStone [[none, none], [none, none]] ⟨0, 0⟩ Color.black) ⟨0, 0⟩ = 0)) :=
  wouldBeSuicide_spec [[none, none], [none, none]] ⟨0, 0⟩ Color.black (by decide) (by rfl)

/-- Witness for C4 at the 2×2 game whose last move was a pass. -/
theorem pass_termination_spec_witness :
    ((∃ c, gameP.lastMove = some (Move.pass, c)) →
      ∃ s1, playMove gameP .pass = .success s1 ∧ s1.isOver = true ∧
        s1.winner = some (if gameP.stoneCount.black > gameP.stoneCount.white then Winner.color .black
          else if gameP.stoneCount.white > gameP.stoneCount.black then Winner.color .white
          else Winner.draw)) ∧
    ((∀ c, ¬ gameP.lastMove = some (Move.pass, c)) →
      ∃ s1, playMove gameP .pass = .success s1 ∧ s1.isOver = false) :=
  pass_termination_spec gameP (by rfl)

/-- Witness for C5: a pass on a finished game fails with `game_over`. -/
theorem playMove_validation_spec_witness :
    playMove gameO .pass = .failure .game_over :=
  (playMove_validation_spec gameO .pass).1 (by rfl)

/-- Witness for C6 at the fresh 2×2 game. -/
theorem resign_spec_witness :
    ∃ s1, playMove gameA .resign = .success s1 ∧ s1.isOver = true ∧
      s1.winner = some (.color gameA.currentPlayer.other) ∧
      s1.moveCount = gameA.moveCount + 1 ∧
      s1.lastMove = some (.resign, gameA.currentPlayer) ∧
      s1.board = gameA.board ∧ s1.stoneCount = gameA.stoneCount ∧
      s1.koPoint = gameA.koPoint :=
  resign_spec gameA (by rfl)

/-- Witness for C7 at integer size 2. -/
theorem createGame_size_validation_witness :
    ∃ s, createGame ((2 : ℤ) : ℚ) = .ok s ∧ s.board = createEmptyBoard (2 : ℤ).toNat ∧
      s.board.length = (2 : ℤ).toNat ∧
      ∀ row ∈ s.board, row.length = (2 : ℤ).toNat ∧ ∀ cell ∈ row, cell = none :=
  (createGame_size_validation ((2 : ℤ) : ℚ)).2 2 rfl (by decide)

/-- Witness for C9 at the 2×2 game whose last move was a pass. -/
theorem ending_pass_toggles_and_clears_ko_witness :
    ∃ s1, playMove gameP .pass = .success s1 ∧ s1.isOver = true ∧
      s1.currentPlayer = gameP.currentPlayer.other ∧ s1.koPoint = none :=
  ending_pass_toggles_and_clears_ko gameP (by rfl) ⟨Color.black, rfl⟩
